import Mathlib

/-!
Shallow embedding of `sync.py`, the single source file of the
immich-variety-sync repository, together with proofs about the claims of its
specification.

The embedding models:
- `get_filename` (filename derivation with sanitization and `os.path.splitext`),
- the orphan purge, asset selection and `download_asset` inside `sync_loop`,
- `enforce_limits` (count and size retention passes),
- the parse / fall-through structure and the geometry of `resize_and_pad`,
- the exception boundary of `download_asset`,
- the startup configuration check of the `__main__` block.

External effects (HTTP fetches, `random.sample`, removal failures, the PIL
pixel pipeline) enter as explicit oracle arguments, so every definition is an
executable function of its inputs.
-/

/-- Python `str.strip` (used by the sanitizer at sync.py line 59 and by
`int()`): drop whitespace from both ends. -/
def pyStrip (l : List Char) : List Char :=
  ((l.dropWhile Char.isWhitespace).reverse.dropWhile Char.isWhitespace).reverse

/-- Characters kept by the basename sanitizer at sync.py line 59:
alphanumerics, space, hyphen, underscore. -/
def keepChar (c : Char) : Bool := c.isAlphanum || c = ' ' || c = '-' || c = '_'

/-- Index of the last occurrence of `c` in `l`, if any. -/
def lastIdxOf (c : Char) (l : List Char) : Option Nat :=
  match l.reverse.findIdx? (fun d => d = c) with
  | none => none
  | some r => some (l.length - 1 - r)

/-- Python `os.path.splitext` on POSIX paths (sync.py line 57): the extension
starts at the last dot, unless the dot lies before the last `/` or every
character between the last `/` (or the start) and that dot is itself a dot. -/
def splitext (l : List Char) : List Char × List Char :=
  let start := match lastIdxOf '/' l with
    | some i => i + 1
    | none => 0
  match lastIdxOf '.' l with
  | none => (l, [])
  | some d =>
    if start ≤ d ∧ ((l.drop start).take (d - start)).any (fun c => c ≠ '.') then
      (l.take d, l.drop d)
    else (l, [])

/-- A remote asset record as consumed by sync.py: `item['id']`,
`item.get('originalFileName', 'img')` (absent key modelled by `none`) and
`item.get('isFavorite')`. -/
structure Asset where
  id : String
  originalFileName : Option String
  isFavorite : Bool
deriving DecidableEq

/-- sync.py `get_filename` (lines 53-60): sanitized base + `-` + asset id +
original extension. -/
def get_filename (a : Asset) : String :=
  let original := (a.originalFileName.getD "img").data
  let be := splitext original
  let base := pyStrip (be.1.filter keepChar)
  String.mk (base ++ ('-' :: a.id.data) ++ be.2)

/-- Boolean substring test on character lists, modelling Python `aid in f`
(sync.py line 252). -/
def containsSeg (needle : List Char) : List Char → Bool
  | [] => needle.isEmpty
  | c :: rest => needle.isPrefixOf (c :: rest) || containsSeg needle rest

/-- Python `aid in f` for strings. -/
def substr (needle hay : String) : Bool := containsSeg needle.data hay.data

/-- Python `f.startswith('.')` (sync.py lines 185 and 247). -/
def hiddenName (s : String) : Bool :=
  match s.data with
  | [] => false
  | c :: _ => c = '.'

/-- A file of the download directory: name, `st_mtime`, `st_size`.  Timestamps
and sizes are modelled as integers. -/
structure Entry where
  name : String
  mtime : Int
  size : Int
deriving DecidableEq

/-- The configuration values consulted by a sync cycle.  `MAX_LOCAL_GB` is read
as a Python float; it is modelled as an exact rational, which matches the
comparisons at sync.py lines 211-212 (multiplication by `2^30` is exact in
binary floating point). -/
structure Config where
  albumsFavorites : Bool
  randomSelect : Int
  maxImages : Int
  maxLocalGB : ℚ

/-- A file survives the orphan purge iff it is hidden or some valid asset id is
a substring of its name (sync.py lines 246-254). -/
def keptInPurge (validIds : List String) (f : String) : Bool :=
  hiddenName f || validIds.any (fun aid => substr aid f)

/-- The orphan purge (sync.py lines 245-261): resulting state and deleted
names.  The source deletes best-effort (`try`/`except: pass`); removals are
modelled as succeeding, which only enlarges the deleted set. -/
def purgeOrphans (validIds : List String) (st : List Entry) : List Entry × List String :=
  (st.filter (fun e => keptInPurge validIds e.name),
   (st.filter (fun e => !keptInPurge validIds e.name)).map (fun e => e.name))

/-- The `favorites` list of sync.py lines 266-273: all favorited assets when
favorites tracking is on, else empty. -/
def favoritesOf (cfg : Config) (assets : List Asset) : List Asset :=
  if cfg.albumsFavorites then assets.filter (fun a => a.isFavorite) else []

/-- The `others` list of sync.py lines 266-273: the non-favorites when
favorites tracking is on, else all assets. -/
def othersOf (cfg : Config) (assets : List Asset) : List Asset :=
  if cfg.albumsFavorites then assets.filter (fun a => !a.isFavorite) else assets

/-- Asset selection (sync.py lines 266-284).  The draw of `random.sample` is an
explicit input `sample`; it is consulted exactly when `RANDOM_SELECT > 0` and
the non-favorites outnumber it, matching lines 275-281. -/
def selectAssets (cfg : Config) (assets : List Asset) (sample : List Asset) : List Asset :=
  if cfg.randomSelect > 0 then
    if ((othersOf cfg assets).length : Int) > cfg.randomSelect then
      favoritesOf cfg assets ++ sample
    else favoritesOf cfg assets ++ othersOf cfg assets
  else favoritesOf cfg assets ++ othersOf cfg assets

/-- `os.utime(path, None)` at sync.py line 153: refresh the stored timestamp. -/
def refreshMtime (fn : String) (now : Int) (st : List Entry) : List Entry :=
  st.map (fun e => if e.name = fn then { e with mtime := now } else e)

/-- File-set effect of `download_asset` (sync.py lines 144-172): refresh the
mtime when the file already exists and report `false`; otherwise add the file on
fetch success (`fetchOk a = some size`, the written size after any resizing) and
report `true`; a failed fetch (non-200 status or exception, lines 167-170)
leaves the state unchanged and reports `false`. -/
def download_asset (fetchOk : Asset → Option Int) (now : Int) (a : Asset)
    (st : List Entry) : List Entry × Bool :=
  let fn := get_filename a
  if st.any (fun e => decide (e.name = fn)) then (refreshMtime fn now st, false)
  else
    match fetchOk a with
    | some sz => (st ++ [⟨fn, now, sz⟩], true)
    | none => (st, false)

/-- The download loop of `sync_loop` (sync.py lines 287-290): fold
`download_asset` over the selection, counting successes. -/
def downloadAll (fetchOk : Asset → Option Int) (now : Int) :
    List Asset → List Entry → List Entry × Nat
  | [], st => (st, 0)
  | a :: rest, st =>
    let p := download_asset fetchOk now a st
    let q := downloadAll fetchOk now rest p.1
    (q.1, q.2 + (if p.2 then 1 else 0))

/-- Sort key of `files.sort(key=lambda x: x['mtime'])` (sync.py line 195). -/
def entryLe (a b : Entry) : Prop := a.mtime ≤ b.mtime

instance : DecidableRel entryLe := fun a b => Int.decLe a.mtime b.mtime

instance : IsTotal Entry entryLe := ⟨fun a b => Int.le_total a.mtime b.mtime⟩

instance : IsTrans Entry entryLe := ⟨fun _ _ _ h h' => le_trans h h'⟩

/-- Running total of `st_size` (sync.py lines 180 and 192). -/
def sumSizes (l : List Entry) : Int := (l.map (fun e => e.size)).sum

/-- Candidate gathering of `enforce_limits` (sync.py lines 183-192): non-hidden
files not in the protected set, in listing order. -/
def candidatesOf (protectedNames : List String) (st : List Entry) : List Entry :=
  st.filter (fun e => !hiddenName e.name && !(decide (e.name ∈ protectedNames)))

/-- Count-limit loop of `enforce_limits` (sync.py lines 200-208): while more
than `maxImages` candidates remain, pop the oldest and attempt its removal.  A
failed removal (`removeFails`) is logged and does not decrement the running
total.  Returns (names actually removed, remaining candidates, bytes freed). -/
def countPass (maxImages : Int) (removeFails : String → Bool) :
    List Entry → List String × List Entry × Int
  | [] => ([], [], 0)
  | e :: rest =>
    if maxImages > 0 ∧ ((rest.length : Int) + 1 > maxImages) then
      let r := countPass maxImages removeFails rest
      if removeFails e.name then r
      else (e.name :: r.1, r.2.1, r.2.2 + e.size)
    else ([], e :: rest, 0)

/-- Size-limit loop of `enforce_limits` (sync.py lines 210-220): while
`MAX_LOCAL_GB > 0`, the running total exceeds `maxBytes` and candidates remain,
pop the oldest and attempt its removal.  Returns the names actually removed. -/
def sizePass (maxGB maxBytes : ℚ) (removeFails : String → Bool) :
    List Entry → Int → List String
  | [], _ => []
  | e :: rest, total =>
    if maxGB > 0 ∧ (total : ℚ) > maxBytes then
      if removeFails e.name then sizePass maxGB maxBytes removeFails rest total
      else e.name :: sizePass maxGB maxBytes removeFails rest (total - e.size)
    else []

/-- sync.py `enforce_limits` (lines 174-223), returning the deleted names in
deletion order.  `List.insertionSort` is a stable sort, hence produces the same
list as Python's stable `list.sort` with the mtime key. -/
def enforce_limits (maxImages : Int) (maxGB : ℚ) (removeFails : String → Bool)
    (protectedNames : List String) (st : List Entry) : List String :=
  if maxImages ≤ 0 ∧ maxGB ≤ 0 then []
  else
    let cands := candidatesOf protectedNames st
    let total := sumSizes cands
    let sorted := List.insertionSort entryLe cands
    let r := countPass maxImages removeFails sorted
    r.1 ++ sizePass maxGB (maxGB * 1073741824) removeFails r.2.1 (total - r.2.2)

/-- The protected set (sync.py lines 237-241): derived filenames of favorited
assets, when favorites tracking is enabled. -/
def protectedOf (cfg : Config) (assets : List Asset) : List String :=
  if cfg.albumsFavorites then (assets.filter (fun a => a.isFavorite)).map get_filename
  else []

/-- Both retention budgets hold on the candidate files of a state; under this
condition `enforce_limits` deletes nothing. -/
def limitsOkB (cfg : Config) (protectedNames : List String) (st : List Entry) : Bool :=
  (decide (cfg.maxImages ≤ 0) ||
    decide (((candidatesOf protectedNames st).length : Int) ≤ cfg.maxImages)) &&
  (decide (cfg.maxLocalGB ≤ 0) ||
    decide (((sumSizes (candidatesOf protectedNames st) : Int) : ℚ) ≤
      cfg.maxLocalGB * 1073741824))

/-- Observable outcome of one sync cycle. -/
structure CycleResult where
  state : List Entry
  downloaded : Nat
  purged : List String
  evicted : List String
deriving DecidableEq

/-- One iteration of sync.py `sync_loop` (lines 229-295), with the fetch result
(`assets`, `hasError`), the `random.sample` draw, the per-asset fetch outcomes
and the per-file removal failures as explicit inputs.  `assets` stands for
`assets.values()` of the id-keyed dict returned by `get_assets`. -/
def sync_cycle (cfg : Config) (assets : List Asset) (hasError : Bool)
    (sample : List Asset) (fetchOk : Asset → Option Int) (removeFails : String → Bool)
    (now : Int) (st : List Entry) : CycleResult :=
  let validIds := assets.map (fun a => a.id)
  let protectedNames := protectedOf cfg assets
  let p := if hasError then (st, ([] : List String)) else purgeOrphans validIds st
  let d := downloadAll fetchOk now (selectAssets cfg assets sample) p.1
  let evicted := enforce_limits cfg.maxImages cfg.maxLocalGB removeFails protectedNames d.1
  ⟨d.1.filter (fun e => !(decide (e.name ∈ evicted))), d.2, p.2, evicted⟩

/-- Python digit tail with underscore separators, as accepted by `int()`:
after the first digit, single underscores may appear between digits. -/
def digitsTail : List Char → Bool
  | [] => true
  | '_' :: c :: rest => c.isDigit && digitsTail rest
  | ['_'] => false
  | c :: rest => c.isDigit && digitsTail rest

/-- Nonempty Python digit sequence with underscore separators. -/
def pyDigitSeq : List Char → Bool
  | [] => false
  | c :: rest => c.isDigit && digitsTail rest

/-- Numeric value of a digit sequence, ignoring underscores. -/
def digitsVal (l : List Char) : Int :=
  (l.filter (fun c => c ≠ '_')).foldl (fun a c => a * 10 + ((c.toNat : Int) - 48)) 0

/-- Python `int(str)`: optional surrounding whitespace, optional sign, then a
digit sequence.  `none` is exactly where Python raises `ValueError`. -/
def parsePyInt (s : List Char) : Option Int :=
  match pyStrip s with
  | '+' :: rest => if pyDigitSeq rest then some (digitsVal rest) else none
  | '-' :: rest => if pyDigitSeq rest then some (-(digitsVal rest)) else none
  | t => if pyDigitSeq t then some (digitsVal t) else none

/-- Split a character list on every occurrence of `sep`, Python
`str.split(sep)` for a one-character separator. -/
def splitOnChar (sep : Char) : List Char → List (List Char)
  | [] => [[]]
  | c :: rest =>
    let r := splitOnChar sep rest
    if c = sep then [] :: r
    else
      match r with
      | [] => [[c]]
      | h :: t => (c :: h) :: t

/-- The TARGET_SIZE parse of `resize_and_pad` (sync.py lines 67-72):
lower-case, split on `x`, unpack exactly two parts, Python `int` on each.
`none` is the `ValueError` path that returns the input unchanged.  The source
checks nothing beyond integer parsing; in particular no positivity. -/
def parseTargetSize (s : String) : Option (Int × Int) :=
  match (splitOnChar 'x' (s.data.map Char.toLower)).map parsePyInt with
  | [some w, some h] => some (w, h)
  | _ => none

/-- Modelled from the spec: the target-size string "parses as two positive
integers separated by `x`".  Stated only to compare the spec's parse contract
with the code's `parseTargetSize`, which does not check positivity. -/
def specParsesAsTwoPositive (s : String) : Bool :=
  match parseTargetSize s with
  | some wh => decide (0 < wh.1) && decide (0 < wh.2)
  | none => false

/-- Outcome of the PIL processing block of `resize_and_pad` (sync.py lines
74-141), treated as the black-box transform the spec prescribes: either
processed bytes, or an exception caught by the blanket handler at line 139. -/
inductive ProcOutcome where
  | raises
  | bytes (out : List Nat)
deriving DecidableEq

/-- Control flow of `resize_and_pad` (sync.py lines 62-141): a parse failure
returns the input (lines 70-72); a processing exception returns the input
(lines 139-141); otherwise the processed bytes are returned. -/
def resize_and_pad (content : List Nat) (targetSizeStr : String) (proc : ProcOutcome) :
    List Nat :=
  match parseTargetSize targetSizeStr with
  | none => content
  | some _ =>
    match proc with
    | .raises => content
    | .bytes out => out

/-- Python `int(x)` applied to a float modelled as a rational: truncation
toward zero. -/
def pyTrunc (q : ℚ) : Int := if 0 ≤ q then ⌊q⌋ else ⌈q⌉

/-- Geometry computed by `resize_and_pad` (sync.py lines 91-130) over exact
rationals: foreground size after aspect-fit, cover-scaled background size,
center-cropped output size and the paste offsets.  The crop box components
(lines 121-124) are integral whenever `bgW - tw` and `bgH - th` are even, as in
every verified instance, so coercing them with truncation is exact. -/
structure LetterboxGeom where
  newW : Int
  newH : Int
  bgW : Int
  bgH : Int
  outW : Int
  outH : Int
  pasteX : Int
  pasteY : Int
deriving DecidableEq

/-- The geometry function itself; divisions by zero cannot arise for decoded
images and parsed targets with nonzero height (a zero would raise inside the
try block and fall back to the original bytes). -/
def letterboxGeom (tw th iw ih : Int) : LetterboxGeom :=
  let tAspect : ℚ := (tw : ℚ) / (th : ℚ)
  let iAspect : ℚ := (iw : ℚ) / (ih : ℚ)
  let fg : Int × Int :=
    if iAspect > tAspect then (tw, pyTrunc ((tw : ℚ) / iAspect))
    else (pyTrunc ((th : ℚ) * iAspect), th)
  let bg : Int × Int :=
    if iAspect > tAspect then (pyTrunc ((th : ℚ) * iAspect), th)
    else (tw, pyTrunc ((tw : ℚ) / iAspect))
  let left : ℚ := ((bg.1 : ℚ) - (tw : ℚ)) / 2
  let top : ℚ := ((bg.2 : ℚ) - (th : ℚ)) / 2
  let right : ℚ := ((bg.1 : ℚ) + (tw : ℚ)) / 2
  let bottom : ℚ := ((bg.2 : ℚ) + (th : ℚ)) / 2
  { newW := fg.1, newH := fg.2, bgW := bg.1, bgH := bg.2,
    outW := pyTrunc right - pyTrunc left, outH := pyTrunc bottom - pyTrunc top,
    pasteX := Int.fdiv (tw - fg.1) 2, pasteY := Int.fdiv (th - fg.2) 2 }

/-- Result of the HTTP GET inside `download_asset`: a transport exception or a
response with a status code. -/
inductive FetchRes where
  | exc
  | response (status : Int)
deriving DecidableEq

/-- Exception behaviour of `download_asset` (sync.py lines 144-172).  The
`try` at lines 157-170 catches transport exceptions, non-200 statuses and write
errors, turning them into a `False` return; the `os.utime` call at line 153
runs outside any `try`, so its failure propagates to the caller
(`Except.error`). -/
def download_asset_result (fileExists utimeFails : Bool) (fetch : FetchRes)
    (writeFails : Bool) : Except String Bool :=
  if fileExists then
    if utimeFails then Except.error "os.utime raised"
    else Except.ok false
  else
    match fetch with
    | .exc => Except.ok false
    | .response status =>
      if status = 200 then
        if writeFails then Except.ok false
        else Except.ok true
      else Except.ok false

/-- Python `str.rstrip('/')` (sync.py line 14). -/
def rstripSlashes (l : List Char) : List Char :=
  (l.reverse.dropWhile (fun c => c = '/')).reverse

/-- Startup configuration (sync.py lines 14-15 and 303-312): `IMMICH_URL`
falls back to a hard-coded default when absent; only a missing or empty
`API_KEY` makes the process print an error and exit with status 1 before any
cycle runs (`Except.error 1`); otherwise `sync_loop` is entered with the
resolved values (`Except.ok`). -/
def startupCheck (immichUrlEnv apiKeyEnv : Option String) : Except Nat (String × String) :=
  let immichUrl := String.mk (rstripSlashes (immichUrlEnv.getD "http://192.168.1.100:2283").data)
  let apiKey := apiKeyEnv.getD ""
  if apiKey = "" then Except.error 1
  else Except.ok (immichUrl, apiKey)

/-- Two states have the same files with the same contents, differing at most in
modification times ("only mtime refreshes"). -/
def sameShape (s t : List Entry) : Prop :=
  s.map (fun e => (e.name, e.size)) = t.map (fun e => (e.name, e.size))
/-! Helper lemmas about the retention passes of `enforce_limits`. -/

theorem countPass_removed_sub (maxImages : Int) (rf : String → Bool) :
    ∀ (l : List Entry), ∀ x ∈ (countPass maxImages rf l).1, x ∈ l.map (fun e => e.name) := by
  intro l
  induction l with
  | nil => simp [countPass]
  | cons e rest ih =>
    intro x hx
    simp only [countPass] at hx
    split at hx
    · split at hx
      · exact List.mem_map.mpr (by
          rcases List.mem_map.mp (ih x hx) with ⟨e', he', rfl⟩
          exact ⟨e', List.mem_cons_of_mem e he', rfl⟩)
      · rcases List.mem_cons.mp hx with rfl | hx'
        · exact List.mem_map.mpr ⟨e, List.mem_cons_self e rest, rfl⟩
        · exact List.mem_map.mpr (by
            rcases List.mem_map.mp (ih x hx') with ⟨e', he', rfl⟩
            exact ⟨e', List.mem_cons_of_mem e he', rfl⟩)
    · simp at hx

theorem countPass_remaining_sub (maxImages : Int) (rf : String → Bool) :
    ∀ (l : List Entry), ∀ e ∈ (countPass maxImages rf l).2.1, e ∈ l := by
  intro l
  induction l with
  | nil => simp [countPass]
  | cons e rest ih =>
    intro f hf
    simp only [countPass] at hf
    split at hf
    · split at hf
      · exact List.mem_cons_of_mem e (ih f hf)
      · exact List.mem_cons_of_mem e (ih f hf)
    · exact hf

theorem sizePass_removed_sub (maxGB maxBytes : ℚ) (rf : String → Bool) :
    ∀ (l : List Entry) (total : Int), ∀ x ∈ sizePass maxGB maxBytes rf l total,
      x ∈ l.map (fun e => e.name) := by
  intro l
  induction l with
  | nil => simp [sizePass]
  | cons e rest ih =>
    intro total x hx
    simp only [sizePass] at hx
    split at hx
    · split at hx
      · exact List.mem_map.mpr (by
          rcases List.mem_map.mp (ih total x hx) with ⟨e', he', rfl⟩
          exact ⟨e', List.mem_cons_of_mem e he', rfl⟩)
      · rcases List.mem_cons.mp hx with rfl | hx'
        · exact List.mem_map.mpr ⟨e, List.mem_cons_self e rest, rfl⟩
        · exact List.mem_map.mpr (by
            rcases List.mem_map.mp (ih _ x hx') with ⟨e', he', rfl⟩
            exact ⟨e', List.mem_cons_of_mem e he', rfl⟩)
    · simp at hx

theorem enforce_limits_mem (maxImages : Int) (maxGB : ℚ) (rf : String → Bool)
    (protectedNames : List String) (st : List Entry) :
    ∀ x ∈ enforce_limits maxImages maxGB rf protectedNames st,
      ∃ e ∈ candidatesOf protectedNames st, e.name = x := by
  intro x hx
  unfold enforce_limits at hx
  split at hx
  · simp at hx
  · rcases List.mem_append.mp hx with hx' | hx'
    · rcases List.mem_map.mp (countPass_removed_sub _ rf _ x hx') with ⟨e, he, rfl⟩
      exact ⟨e, List.mem_insertionSort entryLe |>.mp he, rfl⟩
    · rcases List.mem_map.mp (sizePass_removed_sub _ _ rf _ _ x hx') with ⟨e, he, rfl⟩
      exact ⟨e, (List.mem_insertionSort entryLe).mp
        (countPass_remaining_sub _ rf _ e he), rfl⟩

/-- Claim C5: protection is absolute.  For any retention run — any directory
contents, protected set, removal-failure pattern and count/size limits — a file
whose name lies in the protected set is never removed by `enforce_limits`, even
when a limit remains violated after all unprotected candidates are processed. -/
theorem protected_never_removed (maxImages : Int) (maxGB : ℚ) (rf : String → Bool)
    (protectedNames : List String) (st : List Entry) (f : String)
    (hf : f ∈ protectedNames) :
    f ∉ enforce_limits maxImages maxGB rf protectedNames st := by
  intro hmem
  rcases enforce_limits_mem maxImages maxGB rf protectedNames st f hmem with ⟨e, he, rfl⟩
  rcases List.mem_filter.mp he with ⟨-, hp⟩
  rcases Bool.and_eq_true .. |>.mp hp with ⟨-, hnp⟩
  simp at hnp
  exact hnp hf

/-- Witness for `protected_never_removed`: a protected file survives a run whose
count limit is violated by it alone. -/
theorem protected_never_removed_witness :
    "fav.jpg" ∉ enforce_limits 0 0 (fun _ => false) ["fav.jpg"] [⟨"fav.jpg", 1, 5⟩] :=
  protected_never_removed 0 0 (fun _ => false) ["fav.jpg"] [⟨"fav.jpg", 1, 5⟩]
    "fav.jpg" (by decide)
theorem countPass_noop (maxImages : Int) (rf : String → Bool) (l : List Entry)
    (h : maxImages ≤ 0 ∨ (l.length : Int) ≤ maxImages) :
    countPass maxImages rf l = ([], l, 0) := by
  cases l with
  | nil => simp [countPass]
  | cons e rest =>
    have hc : ¬(maxImages > 0 ∧ ((rest.length : Int) + 1 > maxImages)) := by
      rintro ⟨h1, h2⟩
      rcases h with h | h
      · exact absurd h1 (not_lt.mpr h)
      · rw [List.length_cons] at h
        push_cast at h
        exact absurd h2 (not_lt.mpr h)
    simp only [countPass]
    rw [if_neg hc]

theorem sizePass_noop (maxGB maxBytes : ℚ) (rf : String → Bool) (l : List Entry)
    (total : Int) (h : maxGB ≤ 0 ∨ (total : ℚ) ≤ maxBytes) :
    sizePass maxGB maxBytes rf l total = [] := by
  cases l with
  | nil => simp [sizePass]
  | cons e rest =>
    have hc : ¬(maxGB > 0 ∧ (total : ℚ) > maxBytes) := by
      rintro ⟨h1, h2⟩
      rcases h with h | h
      · exact absurd h1 (not_lt.mpr h)
      · exact absurd h2 (not_lt.mpr h)
    simp only [sizePass]
    rw [if_neg hc]

/-- With no removal failures and a positive count limit `k`, the count pass on a
list of length `N` removes exactly the first `N - k` entries and keeps the rest,
freeing their total size. -/
theorem countPass_exact (k : ℕ) (hk : 0 < k) (l : List Entry) :
    countPass (k : Int) (fun _ => false) l =
      ((l.take (l.length - k)).map (fun e => e.name), l.drop (l.length - k),
        sumSizes (l.take (l.length - k))) := by
  induction l with
  | nil => simp [countPass, sumSizes]
  | cons e rest ih =>
    by_cases hlen : k < rest.length + 1
    · have hc : ((k : Int) > 0 ∧ ((rest.length : Int) + 1 > (k : Int))) :=
        ⟨by exact_mod_cast hk, by exact_mod_cast hlen⟩
      have htake : (e :: rest).length - k = (rest.length - k) + 1 := by
        simp only [List.length_cons]
        omega
      rw [htake]
      simp only [countPass]
      rw [if_pos hc, if_neg (by simp : ¬((fun (_ : String) => false) e.name = true)), ih]
      simp [sumSizes]
      omega
    · have hc : ¬((k : Int) > 0 ∧ ((rest.length : Int) + 1 > (k : Int))) := by
        rintro ⟨-, h2⟩
        have hle : (rest.length : Int) + 1 ≤ (k : Int) := by exact_mod_cast not_lt.mp hlen
        omega
      have htake : (e :: rest).length - k = 0 := by
        simp only [List.length_cons]
        omega
      rw [htake]
      simp only [countPass]
      rw [if_neg hc]
      simp [sumSizes]
/-- Claim C6: for `N` unprotected, non-hidden local files with pairwise-distinct
modification times and `MAX_IMAGES = k` with `0 < k < N` and no size limit, the
retention enforcer removes exactly `N - k` files, and every removed file is
strictly older than every kept file — the removed files are exactly the `N - k`
oldest. -/
theorem eviction_order (k : ℕ) (protectedNames : List String) (st : List Entry)
    (hk : 0 < k) (hkN : k < st.length)
    (hcand : ∀ e ∈ st, hiddenName e.name = false ∧ e.name ∉ protectedNames)
    (hnames : (st.map (fun e => e.name)).Nodup)
    (hmt : (st.map (fun e => e.mtime)).Nodup) :
    (enforce_limits (k : Int) 0 (fun _ => false) protectedNames st).length =
      st.length - k ∧
    ∀ e1 ∈ st, ∀ e2 ∈ st,
      e1.name ∈ enforce_limits (k : Int) 0 (fun _ => false) protectedNames st →
      e2.name ∉ enforce_limits (k : Int) 0 (fun _ => false) protectedNames st →
      e1.mtime < e2.mtime := by
  have hguard : ¬((k : Int) ≤ 0 ∧ (0 : ℚ) ≤ 0) := by
    rintro ⟨h1, -⟩
    have : (0 : Int) < (k : Int) := by exact_mod_cast hk
    omega
  have hcands : candidatesOf protectedNames st = st := by
    apply List.filter_eq_self.mpr
    intro e he
    rcases hcand e he with ⟨h1, h2⟩
    simp [h1, h2]
  have hperm : (List.insertionSort entryLe st).Perm st := List.perm_insertionSort entryLe st
  have hlenS : (List.insertionSort entryLe st).length = st.length :=
    List.length_insertionSort entryLe st
  have henf : enforce_limits (k : Int) 0 (fun _ => false) protectedNames st =
      ((List.insertionSort entryLe st).take (st.length - k)).map (fun e => e.name) := by
    unfold enforce_limits
    rw [if_neg hguard, hcands]
    dsimp only
    rw [countPass_exact k hk, hlenS]
    dsimp only
    rw [sizePass_noop 0 _ _ _ _ (Or.inl le_rfl), List.append_nil]
  rw [henf]
  have hsorted : List.Pairwise entryLe
      ((List.insertionSort entryLe st).take (st.length - k) ++
        (List.insertionSort entryLe st).drop (st.length - k)) := by
    rw [List.take_append_drop]
    exact List.sorted_insertionSort entryLe st
  have hsplit := (List.pairwise_append.mp hsorted).2.2
  constructor
  · rw [List.length_map, List.length_take, hlenS]
    omega
  · intro e1 h1 e2 h2 hm1 hm2
    rcases List.mem_map.mp hm1 with ⟨e1', he1', hne⟩
    have he1S : e1' ∈ st := hperm.mem_iff.mp (List.mem_of_mem_take he1')
    have he1eq : e1' = e1 := List.inj_on_of_nodup_map hnames he1S h1 hne
    subst he1eq
    have he2S : e2 ∈ (List.insertionSort entryLe st).take (st.length - k) ++
        (List.insertionSort entryLe st).drop (st.length - k) := by
      rw [List.take_append_drop]
      exact hperm.mem_iff.mpr h2
    rcases List.mem_append.mp he2S with he2t | he2d
    · exact absurd (List.mem_map_of_mem (fun e => e.name) he2t) hm2
    · have hle : e1'.mtime ≤ e2.mtime := hsplit e1' he1' e2 he2d
      rcases lt_or_eq_of_le hle with hlt | heq
      · exact hlt
      · have : e1' = e2 := List.inj_on_of_nodup_map hmt he1S h2 heq
        subst this
        exact absurd (List.mem_map_of_mem (fun e => e.name) he1') hm2

/-- Witness for `eviction_order`: two files, count limit 1, the single removal. -/
theorem eviction_order_witness :
    (enforce_limits ((1 : ℕ) : Int) 0 (fun _ => false) []
        [⟨"a.jpg", 1, 5⟩, ⟨"b.jpg", 2, 5⟩]).length =
      [(⟨"a.jpg", 1, 5⟩ : Entry), ⟨"b.jpg", 2, 5⟩].length - 1 :=
  (eviction_order 1 [] [⟨"a.jpg", 1, 5⟩, ⟨"b.jpg", 2, 5⟩] (by decide) (by decide)
    (by decide) (by decide) (by decide)).1
/-- Full behaviour of the size pass with a positive `MAX_LOCAL_GB` and no
removal failures: the removed files form a prefix of the candidate list, each
removal happens only while the running total still exceeds the budget, and the
loop stops with the remaining total within the budget unless it exhausted the
candidates. -/
theorem sizePass_spec (maxGB maxBytes : ℚ) (hgb : 0 < maxGB) :
    ∀ (l : List Entry) (total : Int),
      sizePass maxGB maxBytes (fun _ => false) l total =
        (l.take (sizePass maxGB maxBytes (fun _ => false) l total).length).map
          (fun e => e.name) ∧
      (∀ i < (sizePass maxGB maxBytes (fun _ => false) l total).length,
        ((total - sumSizes (l.take i) : Int) : ℚ) > maxBytes) ∧
      (((total - sumSizes
          (l.take (sizePass maxGB maxBytes (fun _ => false) l total).length) : Int) : ℚ) ≤
            maxBytes ∨
        (sizePass maxGB maxBytes (fun _ => false) l total).length = l.length)
  | [], total => by
    refine ⟨rfl, ?_, Or.inr rfl⟩
    intro i hi
    simp [sizePass] at hi
  | e :: rest, total => by
    by_cases hc : maxGB > 0 ∧ (total : ℚ) > maxBytes
    · have hrm : sizePass maxGB maxBytes (fun _ => false) (e :: rest) total =
          e.name :: sizePass maxGB maxBytes (fun _ => false) rest (total - e.size) := by
        simp only [sizePass]
        rw [if_pos hc, if_neg (by simp : ¬((fun (_ : String) => false) e.name = true))]
      rcases sizePass_spec maxGB maxBytes hgb rest (total - e.size) with ⟨ih1, ih2, ih3⟩
      rw [hrm]
      refine ⟨?_, ?_, ?_⟩
      · rw [List.length_cons, List.take_succ_cons, List.map_cons]
        exact congrArg _ ih1
      · intro i hi
        cases i with
        | zero =>
          simpa [sumSizes] using hc.2
        | succ j =>
          rw [List.length_cons, Nat.succ_lt_succ_iff] at hi
          have hj := ih2 j hi
          rw [List.take_succ_cons]
          have harith : total - sumSizes (e :: rest.take j) =
              (total - e.size) - sumSizes (rest.take j) := by
            simp [sumSizes]
            ring
          rw [harith]
          exact hj
      · rw [List.length_cons, List.take_succ_cons]
        have harith : total - sumSizes (e :: rest.take (sizePass maxGB maxBytes
            (fun _ => false) rest (total - e.size)).length) =
            (total - e.size) - sumSizes (rest.take (sizePass maxGB maxBytes
              (fun _ => false) rest (total - e.size)).length) := by
          simp [sumSizes]
          ring
        rcases ih3 with h | h
        · left
          rw [harith]
          exact h
        · right
          rw [List.length_cons, h]
    · have hrm : sizePass maxGB maxBytes (fun _ => false) (e :: rest) total = [] := by
        simp only [sizePass]
        rw [if_neg hc]
      have htb : (total : ℚ) ≤ maxBytes := by
        by_contra hnb
        exact hc ⟨hgb, lt_of_not_le hnb⟩
      rw [hrm]
      refine ⟨rfl, ?_, Or.inl ?_⟩
      · intro i hi
        simp at hi
      · simpa [sumSizes] using htb

/-- Claim C7: for unprotected files whose sizes sum to `total` exceeding
`maxBytes = MAX_LOCAL_GB x 2^30` with `MAX_LOCAL_GB > 0`, the size pass removes
files oldest-first (a prefix of the mtime-sorted candidates, each removed file
no newer than any kept one), removes a file only while the running total still
exceeds `maxBytes`, and stops as soon as the remaining total is within the
budget — or runs out of candidates. -/
theorem size_eviction (maxGB : ℚ) (l : List Entry) (total : Int)
    (hgb : 0 < maxGB) (hsorted : List.Sorted entryLe l)
    (_htot : total = sumSizes l)
    (_hover : (total : ℚ) > maxGB * 1073741824) :
    sizePass maxGB (maxGB * 1073741824) (fun _ => false) l total =
      (l.take (sizePass maxGB (maxGB * 1073741824) (fun _ => false) l total).length).map
        (fun e => e.name) ∧
    (∀ e1 ∈ l.take (sizePass maxGB (maxGB * 1073741824) (fun _ => false) l total).length,
      ∀ e2 ∈ l.drop (sizePass maxGB (maxGB * 1073741824) (fun _ => false) l total).length,
        e1.mtime ≤ e2.mtime) ∧
    (∀ i < (sizePass maxGB (maxGB * 1073741824) (fun _ => false) l total).length,
      ((total - sumSizes (l.take i) : Int) : ℚ) > maxGB * 1073741824) ∧
    (((total - sumSizes (l.take (sizePass maxGB (maxGB * 1073741824)
        (fun _ => false) l total).length) : Int) : ℚ) ≤ maxGB * 1073741824 ∨
      (sizePass maxGB (maxGB * 1073741824) (fun _ => false) l total).length = l.length) := by
  rcases sizePass_spec maxGB (maxGB * 1073741824) hgb l total with ⟨h1, h2, h3⟩
  refine ⟨h1, ?_, h2, h3⟩
  have hp : List.Pairwise entryLe
      (l.take (sizePass maxGB (maxGB * 1073741824) (fun _ => false) l total).length ++
        l.drop (sizePass maxGB (maxGB * 1073741824) (fun _ => false) l total).length) := by
    rw [List.take_append_drop]
    exact hsorted
  exact fun e1 he1 e2 he2 => (List.pairwise_append.mp hp).2.2 e1 he1 e2 he2

/-- Witness for `size_eviction`: one oversized old file is evicted, the newer
file inside the budget is kept. -/
theorem size_eviction_witness :
    sizePass 1 (1 * 1073741824) (fun _ => false)
        [⟨"old.jpg", 1, 1073741825⟩, ⟨"new.jpg", 2, 500⟩] 1073742325 =
      ([(⟨"old.jpg", 1, 1073741825⟩ : Entry), ⟨"new.jpg", 2, 500⟩].take
        (sizePass 1 (1 * 1073741824) (fun _ => false)
          [⟨"old.jpg", 1, 1073741825⟩, ⟨"new.jpg", 2, 500⟩] 1073742325).length).map
        (fun e => e.name) :=
  (size_eviction 1 [⟨"old.jpg", 1, 1073741825⟩, ⟨"new.jpg", 2, 500⟩] 1073742325
    (by decide) (by decide) (by decide)
    (by simp only [one_mul]; decide)).1
/-- Claim C2 counterexample: with `IMMICH_URL` absent from the environment but
`API_KEY` present, startup succeeds — `sync_loop` is entered using the
hard-coded default URL (sync.py line 14) and the process does not exit.  The
claim that a missing `IMMICH_URL` causes a nonzero-status exit is false. -/
theorem c2_counterexample :
    startupCheck none (some "secret") =
      Except.ok ("http://192.168.1.100:2283", "secret") := rfl

/-- Claim C2 (amended): if `API_KEY` is absent (or set to the empty string) at
startup, the process exits with nonzero status 1 and an error message before
any sync cycle is attempted; a missing `IMMICH_URL` never causes an exit, since
it falls back to a built-in default. -/
theorem missing_api_key_exits (immichUrlEnv apiKeyEnv : Option String)
    (h : apiKeyEnv = none ∨ apiKeyEnv = some "") :
    startupCheck immichUrlEnv apiKeyEnv = Except.error 1 := by
  rcases h with h | h <;> subst h <;> simp [startupCheck]

/-- Witness for `missing_api_key_exits`. -/
theorem missing_api_key_exits_witness :
    startupCheck (some "http://immich.local") none = Except.error 1 :=
  missing_api_key_exits (some "http://immich.local") none (Or.inl rfl)

/-- Claim C4 counterexample: when the target file already exists and the
`os.utime` call at sync.py line 153 raises (for instance the file disappeared
between the `os.path.exists` check and the call, or permissions deny it), the
exception propagates to the caller of `download_asset`: it stands outside the
`try` block, so this transport-independent IO error is not caught. -/
theorem c4_counterexample :
    download_asset_result true true (FetchRes.response 200) false =
      Except.error "os.utime raised" := rfl

/-- Claim C4 (amended): `download_asset` reports a success/failure outcome and
never raises, except on the one uncovered path: every transport or IO error in
the fetch/transform/write block (sync.py lines 157-170) is caught and logged,
but a failure of the mtime refresh (`os.utime`, line 153) for an
already-present file propagates to the caller. -/
theorem download_asset_result_no_raise (fileExists utimeFails : Bool)
    (fetch : FetchRes) (writeFails : Bool)
    (h : fileExists = false ∨ utimeFails = false) :
    (download_asset_result fileExists utimeFails fetch writeFails).isOk = true := by
  cases fileExists with
  | true =>
    rcases h with h | h
    · exact absurd h (by simp)
    · subst h
      rfl
  | false =>
    cases fetch with
    | exc => rfl
    | response status =>
      by_cases hs : status = 200
      · subst hs
        cases writeFails <;> rfl
      · simp [download_asset_result, hs, Except.isOk, Except.toBool]

/-- Witness for `download_asset_result_no_raise`: a transport exception on a
fresh download is caught and reported as failure, not raised. -/
theorem download_asset_result_no_raise_witness :
    (download_asset_result false true FetchRes.exc false).isOk = true :=
  download_asset_result_no_raise false true FetchRes.exc false (Or.inl rfl)

/-- Claim C8 counterexample: the string `"0x100"` does not parse as two
positive integers, yet the parse gate of `resize_and_pad` (sync.py lines 67-69)
accepts it — it checks only integerhood — so the transform enters the
processing block instead of returning the input unchanged: if processing
returns bytes `[9]`, the result is `[9]`, not the input `[1, 2, 3]`. -/
theorem c8_counterexample :
    specParsesAsTwoPositive "0x100" = false ∧
      resize_and_pad [1, 2, 3] "0x100" (ProcOutcome.bytes [9]) = [9] := by
  constructor
  · decide
  · decide

/-- Claim C8 (amended): the letterbox transform returns the input bytes
unchanged and raises no error to its caller whenever the target-size string
fails to parse as two integers separated by `x` (the code does not check
positivity), and likewise whenever image decoding or any later processing step
raises an exception. -/
theorem resize_passthrough (content : List Nat) (targetSizeStr : String)
    (proc : ProcOutcome)
    (h : parseTargetSize targetSizeStr = none ∨ proc = ProcOutcome.raises) :
    resize_and_pad content targetSizeStr proc = content := by
  rcases h with h | h
  · simp [resize_and_pad, h]
  · subst h
    unfold resize_and_pad
    cases parseTargetSize targetSizeStr <;> rfl

/-- Witness for `resize_passthrough`: an unparsable target string passes the
input through. -/
theorem resize_passthrough_witness :
    resize_and_pad [1, 2] "axb" ProcOutcome.raises = [1, 2] :=
  resize_passthrough [1, 2] "axb" ProcOutcome.raises (Or.inl (by decide))

/-- Claim C10: in a cycle whose fetch succeeded (`hasError = false`), a local
file whose name starts with `.` is never deleted by the orphan purge, whatever
the catalog content — even if no valid asset id occurs in its name (sync.py
line 247 skips hidden files before the orphan check). -/
theorem hidden_never_purged (cfg : Config) (assets sample : List Asset)
    (fetchOk : Asset → Option Int) (removeFails : String → Bool) (now : Int)
    (st : List Entry) (f : String) (hf : hiddenName f = true) :
    f ∉ (sync_cycle cfg assets false sample fetchOk removeFails now st).purged := by
  intro hmem
  have hmem' : f ∈ (purgeOrphans (assets.map (fun a => a.id)) st).2 := hmem
  rcases List.mem_map.mp hmem' with ⟨e, he, hne⟩
  rcases List.mem_filter.mp he with ⟨-, hkept⟩
  rw [Bool.not_eq_eq_eq_not, Bool.not_true] at hkept
  rw [keptInPurge] at hkept
  rcases Bool.or_eq_false_iff.mp hkept with ⟨h1, -⟩
  rw [hne] at h1
  exact absurd hf (by simp [h1])

/-- Witness for `hidden_never_purged`: a dotfile with no asset id in its name
survives the purge of a cycle with an empty catalog. -/
theorem hidden_never_purged_witness :
    ".env" ∉ (sync_cycle ⟨true, 0, 0, 0⟩ [] false [] (fun _ => none) (fun _ => false) 7
      [⟨".env", 1, 2⟩]).purged :=
  hidden_never_purged ⟨true, 0, 0, 0⟩ [] [] (fun _ => none) (fun _ => false) 7
    [⟨".env", 1, 2⟩] ".env" (by decide)
/-- Claim C9: for a 100x100 source and target string `"200x100"`, the parse
yields `(200, 100)` and the letterbox geometry produces an output of exactly
200x100 pixels whose scaled foreground is 100 pixels tall — the full target
height — with width 100, pasted horizontally centered at x-offset 50 and
vertical offset 0, over a 200x200 cover-scaled background cropped to target. -/
theorem letterbox_100x100_target_200x100 :
    parseTargetSize "200x100" = some (200, 100) ∧
      letterboxGeom 200 100 100 100 =
        { newW := 100, newH := 100, bgW := 200, bgH := 200,
          outW := 200, outH := 100, pasteX := 50, pasteY := 0 } := by
  constructor
  · decide
  · have h1 : ((100 : Int) : ℚ) / ((100 : Int) : ℚ) = 1 := by norm_num
    have h2 : ¬(((100 : Int) : ℚ) / ((100 : Int) : ℚ) >
        ((200 : Int) : ℚ) / ((100 : Int) : ℚ)) := by norm_num
    unfold letterboxGeom
    dsimp only
    rw [if_neg h2, if_neg h2]
    dsimp only
    have e1 : pyTrunc (((100 : Int) : ℚ) * (((100 : Int) : ℚ) / ((100 : Int) : ℚ))) = 100 := by
      norm_num [pyTrunc]
    have e2 : pyTrunc (((200 : Int) : ℚ) / (((100 : Int) : ℚ) / ((100 : Int) : ℚ))) = 200 := by
      norm_num [pyTrunc]
    simp only [e1, e2]
    have c1 : pyTrunc ((((200 : Int) : ℚ) - ((200 : Int) : ℚ)) / 2) = 0 := by
      norm_num [pyTrunc]
    have c2 : pyTrunc ((((200 : Int) : ℚ) - ((100 : Int) : ℚ)) / 2) = 50 := by
      norm_num [pyTrunc]
    have c3 : pyTrunc ((((200 : Int) : ℚ) + ((200 : Int) : ℚ)) / 2) = 200 := by
      norm_num [pyTrunc]
    have c4 : pyTrunc ((((200 : Int) : ℚ) + ((100 : Int) : ℚ)) / 2) = 150 := by
      norm_num [pyTrunc]
    simp only [c1, c2, c3, c4]
    decide
/-- Claim C1 counterexample: a cycle whose fetch reported `hasError = true`
still deletes a local file when a retention limit is in force — here
`MAX_IMAGES = 1` with two local files: the orphan purge is skipped, but
`enforce_limits` runs unconditionally (sync.py line 293) and removes the oldest
file.  This refutes "no local file is deleted in that cycle regardless of the
retention limits in force". -/
theorem c1_counterexample :
    (sync_cycle ⟨true, 0, 1, 0⟩ [] true [] (fun _ => none) (fun _ => false) 100
      [⟨"a.jpg", 1, 5⟩, ⟨"b.jpg", 2, 5⟩]).evicted = ["a.jpg"] := by decide

/-- Claim C1 (amended): when the fetch step reports `hasError = true`, the
orphan purge is skipped, so it deletes no local file regardless of the fetched
catalog's content; and when both retention limits are disabled the cycle
deletes no file at all.  The retention enforcer still runs in an error cycle
and may delete files while a count or size limit is in force. -/
theorem fetch_error_skips_purge (cfg : Config) (assets sample : List Asset)
    (fetchOk : Asset → Option Int) (removeFails : String → Bool) (now : Int)
    (st : List Entry) :
    (sync_cycle cfg assets true sample fetchOk removeFails now st).purged = [] ∧
      (cfg.maxImages ≤ 0 ∧ cfg.maxLocalGB ≤ 0 →
        (sync_cycle cfg assets true sample fetchOk removeFails now st).evicted = []) := by
  constructor
  · rfl
  · intro hlim
    show enforce_limits cfg.maxImages cfg.maxLocalGB removeFails (protectedOf cfg assets)
      (downloadAll fetchOk now (selectAssets cfg assets sample) st).1 = []
    unfold enforce_limits
    rw [if_pos hlim]

/-- Witness for `fetch_error_skips_purge`: with limits disabled, an error cycle
purges and evicts nothing. -/
theorem fetch_error_skips_purge_witness :
    (sync_cycle ⟨true, 0, 0, 0⟩ [] true [] (fun _ => none) (fun _ => false) 3
        [⟨"a.jpg", 1, 5⟩]).purged = [] ∧
      (sync_cycle ⟨true, 0, 0, 0⟩ [] true [] (fun _ => none) (fun _ => false) 3
        [⟨"a.jpg", 1, 5⟩]).evicted = [] :=
  ⟨(fetch_error_skips_purge ⟨true, 0, 0, 0⟩ [] [] (fun _ => none) (fun _ => false) 3
      [⟨"a.jpg", 1, 5⟩]).1,
   (fetch_error_skips_purge ⟨true, 0, 0, 0⟩ [] [] (fun _ => none) (fun _ => false) 3
      [⟨"a.jpg", 1, 5⟩]).2 ⟨by decide, by decide⟩⟩
/-! Helper lemmas for the idempotence analysis of a second sync cycle. -/

theorem sameShape_refl (s : List Entry) : sameShape s s := rfl

theorem sameShape_trans {s t u : List Entry} (h1 : sameShape s t) (h2 : sameShape t u) :
    sameShape s u := h1.trans h2

theorem sameShape_names {s t : List Entry} (h : sameShape s t) :
    s.map (fun e => e.name) = t.map (fun e => e.name) := by
  have h' := congrArg (List.map Prod.fst) h
  simpa [List.map_map, Function.comp] using h'

theorem sameShape_sizes {s t : List Entry} (h : sameShape s t) :
    s.map (fun e => e.size) = t.map (fun e => e.size) := by
  have h' := congrArg (List.map Prod.snd) h
  simpa [List.map_map, Function.comp] using h'

theorem sameShape_length {s t : List Entry} (h : sameShape s t) : s.length = t.length := by
  have h' := congrArg List.length h
  simpa using h'

theorem sameShape_sumSizes {s t : List Entry} (h : sameShape s t) :
    sumSizes s = sumSizes t := by
  unfold sumSizes
  rw [sameShape_sizes h]

theorem sameShape_filter (p : String → Bool) :
    ∀ {s t : List Entry}, sameShape s t →
      sameShape (s.filter (fun e => p e.name)) (t.filter (fun e => p e.name))
  | [], [], _ => rfl
  | [], f :: t, h => by
    exact absurd h (by simp [sameShape])
  | e :: s, [], h => by
    exact absurd h (by simp [sameShape])
  | e :: s, f :: t, h => by
    rcases (by simpa [sameShape] using h) with ⟨⟨hn, hs⟩, htail⟩
    have ih := sameShape_filter p (s := s) (t := t) htail
    have hpf : p f.name = p e.name := by rw [hn]
    by_cases hp : p e.name = true
    · simp only [List.filter_cons, hp, hpf, if_true]
      show sameShape (e :: List.filter _ s) (f :: List.filter _ t)
      unfold sameShape at ih ⊢
      simpa [hn, hs] using ih
    · have hp' : p e.name = false := by simpa using hp
      have hpf' : p f.name = false := by rw [hpf]; exact hp'
      simp only [List.filter_cons, hp', hpf', Bool.false_eq_true, if_false]
      exact ih

theorem refreshMtime_shape (fn : String) (now : Int) (st : List Entry) :
    sameShape (refreshMtime fn now st) st := by
  unfold sameShape refreshMtime
  rw [List.map_map]
  apply List.map_congr_left
  intro e _
  by_cases he : e.name = fn <;> simp [he]

theorem isPrefixOf_append (n y : List Char) : n.isPrefixOf (n ++ y) = true := by
  induction n with
  | nil => simp [List.isPrefixOf]
  | cons c rest ih => simp [List.isPrefixOf, ih]

theorem containsSeg_append (n x y : List Char) : containsSeg n (x ++ n ++ y) = true := by
  induction x with
  | nil =>
    simp only [List.nil_append]
    cases n with
    | nil =>
      cases y with
      | nil => rfl
      | cons d rest => simp [containsSeg]
    | cons c rest =>
      rw [List.cons_append, containsSeg, ← List.cons_append, isPrefixOf_append, Bool.true_or]
  | cons c x' ih =>
    rw [List.cons_append, List.cons_append, containsSeg, ih, Bool.or_true]

theorem substr_get_filename (a : Asset) : substr a.id (get_filename a) = true := by
  unfold substr get_filename
  show containsSeg a.id.data (String.mk _).data = true
  have hassoc : ∀ (b e : List Char),
      b ++ ('-' :: a.id.data) ++ e = (b ++ ['-']) ++ a.id.data ++ e := by
    intro b e
    simp
  rw [hassoc]
  exact containsSeg_append _ _ _

theorem keptInPurge_get_filename (validIds : List String) (a : Asset)
    (h : a.id ∈ validIds) : keptInPurge validIds (get_filename a) = true := by
  unfold keptInPurge
  have hany : validIds.any (fun aid => substr aid (get_filename a)) = true :=
    List.any_eq_true.mpr ⟨a.id, h, substr_get_filename a⟩
  rw [hany, Bool.or_true]

theorem purgeOrphans_noop (validIds : List String) (st : List Entry)
    (h : ∀ e ∈ st, keptInPurge validIds e.name = true) :
    purgeOrphans validIds st = (st, []) := by
  unfold purgeOrphans
  rw [List.filter_eq_self.mpr h]
  have hnil : st.filter (fun e => !keptInPurge validIds e.name) = [] :=
    List.filter_eq_nil_iff.mpr (by
      intro e he
      simp [h e he])
  rw [hnil]
  rfl

theorem favoritesOf_sub (cfg : Config) (assets : List Asset) :
    ∀ a ∈ favoritesOf cfg assets, a ∈ assets := by
  intro a ha
  unfold favoritesOf at ha
  split at ha
  · exact (List.mem_filter.mp ha).1
  · simp at ha

theorem othersOf_sub (cfg : Config) (assets : List Asset) :
    ∀ a ∈ othersOf cfg assets, a ∈ assets := by
  intro a ha
  unfold othersOf at ha
  split at ha
  · exact (List.mem_filter.mp ha).1
  · exact ha

theorem selectAssets_sub (cfg : Config) (assets sample : List Asset)
    (hs : ∀ a ∈ sample, a ∈ assets) :
    ∀ a ∈ selectAssets cfg assets sample, a ∈ assets := by
  intro a ha
  unfold selectAssets at ha
  split at ha
  · split at ha
    · rcases List.mem_append.mp ha with h | h
      · exact favoritesOf_sub cfg assets a h
      · exact hs a h
    · rcases List.mem_append.mp ha with h | h
      · exact favoritesOf_sub cfg assets a h
      · exact othersOf_sub cfg assets a h
  · rcases List.mem_append.mp ha with h | h
    · exact favoritesOf_sub cfg assets a h
    · exact othersOf_sub cfg assets a h
theorem download_asset_names_sub (fetchOk : Asset → Option Int) (now : Int) (a : Asset)
    (st : List Entry) :
    ∀ x ∈ (download_asset fetchOk now a st).1.map (fun e => e.name),
      x ∈ st.map (fun e => e.name) ∨ x = get_filename a := by
  intro x hx
  unfold download_asset at hx
  dsimp only at hx
  by_cases hany : (st.any fun e => decide (e.name = get_filename a)) = true
  · rw [if_pos hany] at hx
    left
    rwa [sameShape_names (refreshMtime_shape (get_filename a) now st)] at hx
  · rw [if_neg hany] at hx
    rcases hfa : fetchOk a with _ | sz <;> rw [hfa] at hx <;> dsimp only at hx
    · exact Or.inl hx
    · rw [List.map_append, List.mem_append] at hx
      rcases hx with hx | hx
      · exact Or.inl hx
      · right
        simpa using hx

theorem download_asset_names_mono (fetchOk : Asset → Option Int) (now : Int) (a : Asset)
    (st : List Entry) (x : String) (hx : x ∈ st.map (fun e => e.name)) :
    x ∈ (download_asset fetchOk now a st).1.map (fun e => e.name) := by
  unfold download_asset
  dsimp only
  by_cases hany : (st.any fun e => decide (e.name = get_filename a)) = true
  · rw [if_pos hany]
    rwa [sameShape_names (refreshMtime_shape (get_filename a) now st)]
  · rw [if_neg hany]
    rcases hfa : fetchOk a with _ | sz <;> dsimp only
    · exact hx
    · rw [List.map_append, List.mem_append]
      exact Or.inl hx

theorem download_asset_present (fetchOk : Asset → Option Int) (now : Int) (a : Asset)
    (st : List Entry) (h : (fetchOk a).isSome = true) :
    get_filename a ∈ (download_asset fetchOk now a st).1.map (fun e => e.name) := by
  unfold download_asset
  dsimp only
  by_cases hany : (st.any fun e => decide (e.name = get_filename a)) = true
  · rw [if_pos hany]
    rw [sameShape_names (refreshMtime_shape (get_filename a) now st)]
    rcases List.any_eq_true.mp hany with ⟨e, he, heq⟩
    exact List.mem_map.mpr ⟨e, he, of_decide_eq_true heq⟩
  · rw [if_neg hany]
    rcases hfa : fetchOk a with _ | sz <;> dsimp only
    · rw [hfa] at h
      simp at h
    · rw [List.map_append, List.mem_append]
      right
      simp

theorem downloadAll_names_mono (fetchOk : Asset → Option Int) (now : Int) :
    ∀ (sel : List Asset) (st : List Entry) (x : String),
      x ∈ st.map (fun e => e.name) →
      x ∈ (downloadAll fetchOk now sel st).1.map (fun e => e.name)
  | [], st, x, hx => hx
  | a :: rest, st, x, hx => by
    show x ∈ (downloadAll fetchOk now rest (download_asset fetchOk now a st).1).1.map
      (fun e => e.name)
    exact downloadAll_names_mono fetchOk now rest _ x
      (download_asset_names_mono fetchOk now a st x hx)

theorem downloadAll_names_sub (fetchOk : Asset → Option Int) (now : Int) :
    ∀ (sel : List Asset) (st : List Entry) (x : String),
      x ∈ (downloadAll fetchOk now sel st).1.map (fun e => e.name) →
      x ∈ st.map (fun e => e.name) ∨ ∃ a ∈ sel, x = get_filename a
  | [], st, x, hx => Or.inl hx
  | a :: rest, st, x, hx => by
    have hx' : x ∈ (downloadAll fetchOk now rest (download_asset fetchOk now a st).1).1.map
        (fun e => e.name) := hx
    rcases downloadAll_names_sub fetchOk now rest _ x hx' with h | ⟨b, hb, rfl⟩
    · rcases download_asset_names_sub fetchOk now a st x h with h' | h'
      · exact Or.inl h'
      · exact Or.inr ⟨a, List.mem_cons_self a rest, h'⟩
    · exact Or.inr ⟨b, List.mem_cons_of_mem a hb, rfl⟩

theorem downloadAll_present (fetchOk : Asset → Option Int) (now : Int) :
    ∀ (sel : List Asset) (st : List Entry) (a : Asset), a ∈ sel →
      (fetchOk a).isSome = true →
      get_filename a ∈ (downloadAll fetchOk now sel st).1.map (fun e => e.name)
  | [], _, a, ha, _ => absurd ha (List.not_mem_nil a)
  | b :: rest, st, a, ha, hsome => by
    rcases List.mem_cons.mp ha with rfl | ha'
    · exact downloadAll_names_mono fetchOk now rest _ _
        (download_asset_present fetchOk now a st hsome)
    · exact downloadAll_present fetchOk now rest _ a ha' hsome

theorem downloadAll_all_present (fetchOk : Asset → Option Int) (now : Int) :
    ∀ (sel : List Asset) (st : List Entry),
      (∀ a ∈ sel, get_filename a ∈ st.map (fun e => e.name)) →
      (downloadAll fetchOk now sel st).2 = 0 ∧
        sameShape (downloadAll fetchOk now sel st).1 st
  | [], st, _ => ⟨rfl, sameShape_refl st⟩
  | a :: rest, st, h => by
    have hfn : get_filename a ∈ st.map (fun e => e.name) := h a (List.mem_cons_self a rest)
    rcases List.mem_map.mp hfn with ⟨e, he, hne⟩
    have hany : st.any (fun e => decide (e.name = get_filename a)) = true :=
      List.any_eq_true.mpr ⟨e, he, decide_eq_true hne⟩
    have hda : download_asset fetchOk now a st =
        (refreshMtime (get_filename a) now st, false) := by
      unfold download_asset
      dsimp only
      rw [if_pos hany]
    have hshape : sameShape (refreshMtime (get_filename a) now st) st :=
      refreshMtime_shape (get_filename a) now st
    have hrest : ∀ b ∈ rest, get_filename b ∈
        (refreshMtime (get_filename a) now st).map (fun e => e.name) := by
      intro b hb
      rw [sameShape_names hshape]
      exact h b (List.mem_cons_of_mem a hb)
    have ih := downloadAll_all_present fetchOk now rest
      (refreshMtime (get_filename a) now st) hrest
    show ((downloadAll fetchOk now rest (download_asset fetchOk now a st).1).1,
        (downloadAll fetchOk now rest (download_asset fetchOk now a st).1).2 +
          (if (download_asset fetchOk now a st).2 then 1 else 0)).2 = 0 ∧
      sameShape ((downloadAll fetchOk now rest (download_asset fetchOk now a st).1).1,
        (downloadAll fetchOk now rest (download_asset fetchOk now a st).1).2 +
          (if (download_asset fetchOk now a st).2 then 1 else 0)).1 st
    rw [hda]
    refine ⟨?_, sameShape_trans ih.2 hshape⟩
    simp [ih.1]

theorem limitsOkB_congr (cfg : Config) (protectedNames : List String)
    {s t : List Entry} (h : sameShape s t) :
    limitsOkB cfg protectedNames s = limitsOkB cfg protectedNames t := by
  have hc : sameShape (candidatesOf protectedNames s) (candidatesOf protectedNames t) :=
    sameShape_filter (fun n => !hiddenName n && !(decide (n ∈ protectedNames))) h
  unfold limitsOkB
  rw [sameShape_length hc, sameShape_sumSizes hc]

theorem enforce_limits_nil (cfg : Config) (protectedNames : List String)
    (rf : String → Bool) (st : List Entry)
    (h : limitsOkB cfg protectedNames st = true) :
    enforce_limits cfg.maxImages cfg.maxLocalGB rf protectedNames st = [] := by
  unfold limitsOkB at h
  rcases Bool.and_eq_true .. |>.mp h with ⟨h1, h2⟩
  have hc1 : cfg.maxImages ≤ 0 ∨
      (((candidatesOf protectedNames st).length : Int) ≤ cfg.maxImages) := by
    rcases Bool.or_eq_true .. |>.mp h1 with h' | h'
    · exact Or.inl (of_decide_eq_true h')
    · exact Or.inr (of_decide_eq_true h')
  have hc2 : cfg.maxLocalGB ≤ 0 ∨
      (((sumSizes (candidatesOf protectedNames st) : Int) : ℚ) ≤
        cfg.maxLocalGB * 1073741824) := by
    rcases Bool.or_eq_true .. |>.mp h2 with h' | h'
    · exact Or.inl (of_decide_eq_true h')
    · exact Or.inr (of_decide_eq_true h')
  unfold enforce_limits
  split
  · rfl
  · dsimp only
    have hc1' : cfg.maxImages ≤ 0 ∨
        (((List.insertionSort entryLe (candidatesOf protectedNames st)).length : Int) ≤
          cfg.maxImages) := by
      rcases hc1 with h' | h'
      · exact Or.inl h'
      · refine Or.inr ?_
        rw [List.length_insertionSort]
        exact h'
    rw [countPass_noop cfg.maxImages rf _ hc1']
    dsimp only
    have hsz : cfg.maxLocalGB ≤ 0 ∨
        (((sumSizes (candidatesOf protectedNames st) - 0 : Int) : ℚ) ≤
          cfg.maxLocalGB * 1073741824) := by
      rcases hc2 with h' | h'
      · exact Or.inl h'
      · refine Or.inr ?_
        simpa using h'
    rw [sizePass_noop _ _ _ _ _ hsz]
    rfl
/-- Core of the idempotence argument: a cycle without fetch error, run from a
state whose files all pass the orphan check and already contain every selected
asset's derived filename, and whose candidates satisfy both retention budgets,
downloads nothing, purges nothing, evicts nothing and only refreshes mtimes. -/
theorem second_cycle_core (cfg : Config) (assets sample : List Asset)
    (fetchOk2 : Asset → Option Int) (rf2 : String → Bool) (now2 : Int)
    (stA : List Entry)
    (hkept : ∀ e ∈ stA, keptInPurge (assets.map (fun a => a.id)) e.name = true)
    (hpresent : ∀ a ∈ selectAssets cfg assets sample,
      get_filename a ∈ stA.map (fun e => e.name))
    (hlim : limitsOkB cfg (protectedOf cfg assets) stA = true) :
    (sync_cycle cfg assets false sample fetchOk2 rf2 now2 stA).downloaded = 0 ∧
    (sync_cycle cfg assets false sample fetchOk2 rf2 now2 stA).purged = [] ∧
    (sync_cycle cfg assets false sample fetchOk2 rf2 now2 stA).evicted = [] ∧
    sameShape (sync_cycle cfg assets false sample fetchOk2 rf2 now2 stA).state stA := by
  have hpurge : purgeOrphans (assets.map (fun a => a.id)) stA = (stA, []) :=
    purgeOrphans_noop _ stA hkept
  have hdl2 := downloadAll_all_present fetchOk2 now2 (selectAssets cfg assets sample)
    stA hpresent
  have hlim2 : limitsOkB cfg (protectedOf cfg assets)
      (downloadAll fetchOk2 now2 (selectAssets cfg assets sample) stA).1 = true := by
    rw [limitsOkB_congr cfg _ hdl2.2]
    exact hlim
  have hev2 : enforce_limits cfg.maxImages cfg.maxLocalGB rf2 (protectedOf cfg assets)
      (downloadAll fetchOk2 now2 (selectAssets cfg assets sample) stA).1 = [] :=
    enforce_limits_nil cfg _ rf2 _ hlim2
  have hcycle : sync_cycle cfg assets false sample fetchOk2 rf2 now2 stA =
      ⟨(downloadAll fetchOk2 now2 (selectAssets cfg assets sample) stA).1.filter
          (fun e => !(decide (e.name ∈ enforce_limits cfg.maxImages cfg.maxLocalGB rf2
            (protectedOf cfg assets)
            (downloadAll fetchOk2 now2 (selectAssets cfg assets sample) stA).1))),
        (downloadAll fetchOk2 now2 (selectAssets cfg assets sample) stA).2,
        [],
        enforce_limits cfg.maxImages cfg.maxLocalGB rf2 (protectedOf cfg assets)
          (downloadAll fetchOk2 now2 (selectAssets cfg assets sample) stA).1⟩ := by
    unfold sync_cycle
    dsimp only
    rw [hpurge]
    rfl
  rw [hcycle]
  refine ⟨hdl2.1, rfl, hev2, ?_⟩
  show sameShape ((downloadAll fetchOk2 now2 (selectAssets cfg assets sample) stA).1.filter
      (fun e => !(decide (e.name ∈ enforce_limits cfg.maxImages cfg.maxLocalGB rf2
        (protectedOf cfg assets)
        (downloadAll fetchOk2 now2 (selectAssets cfg assets sample) stA).1)))) stA
  rw [hev2]
  have hfil : (downloadAll fetchOk2 now2 (selectAssets cfg assets sample) stA).1.filter
      (fun e => !(decide (e.name ∈ ([] : List String)))) =
      (downloadAll fetchOk2 now2 (selectAssets cfg assets sample) stA).1 := by
    apply List.filter_eq_self.mpr
    intro e _
    simp
  rw [hfil]
  exact hdl2.2

/-- Claim C3 (amended): running a second cycle immediately after a first cycle
with the catalog unchanged, the same `random.sample` draw (always the case when
`RANDOM_SELECT = 0`), every first-cycle download succeeding, the first cycle's
retention evicting nothing and the resulting state satisfying both retention
budgets, produces no new downloads and no deletions on the second run; its only
filesystem effect is refreshing modification times of already-present files.
Without the same-draw condition the claim fails (see the counterexample): with
`RANDOM_SELECT > 0` the second cycle may sample different assets and download
them. -/
theorem second_cycle_idempotent (cfg : Config) (assets sample : List Asset)
    (fetchOk fetchOk2 : Asset → Option Int) (rf rf2 : String → Bool)
    (now1 now2 : Int) (st0 : List Entry)
    (hsample : ∀ a ∈ sample, a ∈ assets)
    (hdl : ∀ a ∈ selectAssets cfg assets sample, (fetchOk a).isSome = true)
    (hev : (sync_cycle cfg assets false sample fetchOk rf now1 st0).evicted = [])
    (hlim : limitsOkB cfg (protectedOf cfg assets)
      (sync_cycle cfg assets false sample fetchOk rf now1 st0).state = true) :
    (sync_cycle cfg assets false sample fetchOk2 rf2 now2
        (sync_cycle cfg assets false sample fetchOk rf now1 st0).state).downloaded = 0 ∧
    (sync_cycle cfg assets false sample fetchOk2 rf2 now2
        (sync_cycle cfg assets false sample fetchOk rf now1 st0).state).purged = [] ∧
    (sync_cycle cfg assets false sample fetchOk2 rf2 now2
        (sync_cycle cfg assets false sample fetchOk rf now1 st0).state).evicted = [] ∧
    sameShape (sync_cycle cfg assets false sample fetchOk2 rf2 now2
        (sync_cycle cfg assets false sample fetchOk rf now1 st0).state).state
      (sync_cycle cfg assets false sample fetchOk rf now1 st0).state := by
  have hev1 : enforce_limits cfg.maxImages cfg.maxLocalGB rf (protectedOf cfg assets)
      (downloadAll fetchOk now1 (selectAssets cfg assets sample)
        (purgeOrphans (assets.map (fun a => a.id)) st0).1).1 = [] := hev
  have hstate : (sync_cycle cfg assets false sample fetchOk rf now1 st0).state =
      (downloadAll fetchOk now1 (selectAssets cfg assets sample)
        (purgeOrphans (assets.map (fun a => a.id)) st0).1).1 := by
    show (downloadAll fetchOk now1 (selectAssets cfg assets sample)
        (purgeOrphans (assets.map (fun a => a.id)) st0).1).1.filter
        (fun e => !(decide (e.name ∈ enforce_limits cfg.maxImages cfg.maxLocalGB rf
          (protectedOf cfg assets)
          (downloadAll fetchOk now1 (selectAssets cfg assets sample)
            (purgeOrphans (assets.map (fun a => a.id)) st0).1).1))) = _
    rw [hev1]
    apply List.filter_eq_self.mpr
    intro e _
    simp
  have hkept : ∀ e ∈ (downloadAll fetchOk now1 (selectAssets cfg assets sample)
      (purgeOrphans (assets.map (fun a => a.id)) st0).1).1,
      keptInPurge (assets.map (fun a => a.id)) e.name = true := by
    intro e he
    have hne : e.name ∈ (downloadAll fetchOk now1 (selectAssets cfg assets sample)
        (purgeOrphans (assets.map (fun a => a.id)) st0).1).1.map (fun e => e.name) :=
      List.mem_map_of_mem _ he
    rcases downloadAll_names_sub fetchOk now1 _ _ _ hne with h | ⟨a, ha, heq⟩
    · rcases List.mem_map.mp h with ⟨e', he', hne'⟩
      have hk := (List.mem_filter.mp he').2
      rwa [hne'] at hk
    · rw [heq]
      exact keptInPurge_get_filename _ a
        (List.mem_map_of_mem _ (selectAssets_sub cfg assets sample hsample a ha))
  have hpresent : ∀ a ∈ selectAssets cfg assets sample,
      get_filename a ∈ (downloadAll fetchOk now1 (selectAssets cfg assets sample)
        (purgeOrphans (assets.map (fun a => a.id)) st0).1).1.map (fun e => e.name) := by
    intro a ha
    exact downloadAll_present fetchOk now1 _ _ a ha (hdl a ha)
  rw [hstate] at hlim ⊢
  exact second_cycle_core cfg assets sample fetchOk2 rf2 now2 _ hkept hpresent hlim

/-- Witness for `second_cycle_idempotent`: one asset, no random sampling, a
successful first download; the second cycle changes nothing but mtimes. -/
theorem second_cycle_idempotent_witness :
    (sync_cycle ⟨true, 0, 0, 0⟩ [⟨"idA", some "a.jpg", false⟩] false []
        (fun _ => some 10) (fun _ => false) 2
        (sync_cycle ⟨true, 0, 0, 0⟩ [⟨"idA", some "a.jpg", false⟩] false []
          (fun _ => some 10) (fun _ => false) 1 []).state).downloaded = 0 ∧
    (sync_cycle ⟨true, 0, 0, 0⟩ [⟨"idA", some "a.jpg", false⟩] false []
        (fun _ => some 10) (fun _ => false) 2
        (sync_cycle ⟨true, 0, 0, 0⟩ [⟨"idA", some "a.jpg", false⟩] false []
          (fun _ => some 10) (fun _ => false) 1 []).state).purged = [] ∧
    (sync_cycle ⟨true, 0, 0, 0⟩ [⟨"idA", some "a.jpg", false⟩] false []
        (fun _ => some 10) (fun _ => false) 2
        (sync_cycle ⟨true, 0, 0, 0⟩ [⟨"idA", some "a.jpg", false⟩] false []
          (fun _ => some 10) (fun _ => false) 1 []).state).evicted = [] ∧
    sameShape (sync_cycle ⟨true, 0, 0, 0⟩ [⟨"idA", some "a.jpg", false⟩] false []
        (fun _ => some 10) (fun _ => false) 2
        (sync_cycle ⟨true, 0, 0, 0⟩ [⟨"idA", some "a.jpg", false⟩] false []
          (fun _ => some 10) (fun _ => false) 1 []).state).state
      (sync_cycle ⟨true, 0, 0, 0⟩ [⟨"idA", some "a.jpg", false⟩] false []
        (fun _ => some 10) (fun _ => false) 1 []).state :=
  second_cycle_idempotent ⟨true, 0, 0, 0⟩ [⟨"idA", some "a.jpg", false⟩] []
    (fun _ => some 10) (fun _ => some 10) (fun _ => false) (fun _ => false) 1 2 []
    (by decide) (by decide) (by decide) (by decide)

/-- Claim C3 counterexample: with an unchanged two-asset catalog, no retention
limits in force (so none violated) and `RANDOM_SELECT = 1`, a first cycle whose
draw is the first asset is followed by a second cycle whose draw is the second
asset — both legal draws of `random.sample(others, 1)`.  The second run
downloads one new file, refuting "no new downloads on the second run". -/
theorem c3_counterexample :
    (sync_cycle ⟨true, 1, 0, 0⟩ [⟨"idA", some "a.jpg", false⟩, ⟨"idB", some "b.jpg", false⟩]
        false [⟨"idB", some "b.jpg", false⟩] (fun _ => some 10) (fun _ => false) 2
        (sync_cycle ⟨true, 1, 0, 0⟩
          [⟨"idA", some "a.jpg", false⟩, ⟨"idB", some "b.jpg", false⟩]
          false [⟨"idA", some "a.jpg", false⟩] (fun _ => some 10) (fun _ => false) 1
          []).state).downloaded = 1 := by decide
